import Mathlib

/-!
Verification of the dispatch core of the agent-swarm repository.

The development shallowly embeds two layers of the program:

* the Claim Engine / Stale-Claim Reaper over the durable store
  (`be/db`, exercised by the tests in `src/unnamed/part_003`); its
  implementation file is not part of the source snapshot, so those
  operations are modelled from the words of the specification
  (each such definition carries a `Modelled from the spec:` doc comment);
* the per-agent poll loop, process supervision and hook script
  (`src/commands/runner.ts`, `src/hooks/hook.ts`, `src/types.ts`),
  translated directly from the TypeScript source.

Machine state is explicit: the store is a list of records, timestamps are
naturals (milliseconds), fallible operations return `Option`/pairs of the
result with the successor state.
-/

namespace AgentSwarm

/-! ### Task records and the task Claim Engine -/

/-- Task status domain of the specification (§3): eight values, including
`reviewing` (produced by claiming an offered task) and `cancelled`
(produced by `cancelTask`). -/
inductive TaskStatus where
  | unassigned
  | offered
  | reviewing
  | pending
  | inProgress
  | completed
  | taskFailed
  | cancelled
deriving DecidableEq, Repr

/-- String rendering of a `TaskStatus`, matching the strings stored by the
program (`"in_progress"` etc.). -/
def TaskStatus.toDbString : TaskStatus → String
  | .unassigned => "unassigned"
  | .offered => "offered"
  | .reviewing => "reviewing"
  | .pending => "pending"
  | .inProgress => "in_progress"
  | .completed => "completed"
  | .taskFailed => "failed"
  | .cancelled => "cancelled"

/-- Task row of the store, restricted to the fields the Claim Engine and
Reaper read or write. -/
structure Task where
  id : String
  status : TaskStatus
  offeredTo : Option String
  agentId : Option String
  lastUpdatedAt : Nat
deriving DecidableEq, Repr

/-- Guard of the conditional UPDATE behind `claimOfferedTask`: the row is
the requested task, still `offered`, and offered to the calling agent. -/
def taskClaimable (taskId agentId : String) (t : Task) : Bool :=
  decide (t.id = taskId ∧ t.status = TaskStatus.offered ∧ t.offeredTo = some agentId)

/-- Modelled from the spec: `claimOfferedTask(taskId, agentId)` → Task|none
(`be/db`, absent from the snapshot; exercised at `src/unnamed/part_003`
277–443). Single conditional update, offered→reviewing iff current status
is `offered` and `offeredTo` is the caller; otherwise nothing happens and
`none` is returned. -/
def claimOfferedTask (taskId agentId : String) (now : Nat) (ts : List Task) :
    Option Task × List Task :=
  match ts.find? (taskClaimable taskId agentId) with
  | none => (none, ts)
  | some t =>
      let t' : Task := { t with status := TaskStatus.reviewing, lastUpdatedAt := now }
      (some t', ts.map fun u => if taskClaimable taskId agentId u then t' else u)

/-- Guard of the Reaper sweep over tasks: `reviewing` held longer than the
timeout (claim age `now - lastUpdatedAt` exceeds `timeout`). -/
def taskStale (timeout now : Nat) (t : Task) : Bool :=
  decide (t.status = TaskStatus.reviewing ∧ t.lastUpdatedAt + timeout < now)

/-- Modelled from the spec: `releaseStaleReviewingTasks(timeout)` (`be/db`,
absent from the snapshot; exercised at `src/unnamed/part_003` 412–443).
Restores reviewing→offered for every stale claim, keeping `offeredTo`, and
returns the release count. -/
def releaseStaleReviewingTasks (timeout now : Nat) (ts : List Task) :
    Nat × List Task :=
  ((ts.filter (taskStale timeout now)).length,
   ts.map fun t =>
     if taskStale timeout now t then
       { t with status := TaskStatus.offered, lastUpdatedAt := now }
     else t)

/-- Results of `n` successive `claimOfferedTask` calls on one record,
threading the store state. -/
def iterClaimTask (taskId agentId : String) (now : Nat) :
    Nat → List Task → List (Option Task)
  | 0, _ => []
  | Nat.succ n, ts =>
      let r := claimOfferedTask taskId agentId now ts
      r.1 :: iterClaimTask taskId agentId now n r.2

theorem taskClaimable_iff {taskId agentId : String} {t : Task} :
    taskClaimable taskId agentId t = true ↔
      t.id = taskId ∧ t.status = TaskStatus.offered ∧ t.offeredTo = some agentId := by
  simp [taskClaimable]

theorem claimOfferedTask_of_claimable {taskId agentId : String} {now : Nat}
    {ts : List Task} (h : ∃ t ∈ ts, taskClaimable taskId agentId t = true) :
    ∃ t, ts.find? (taskClaimable taskId agentId) = some t ∧
      taskClaimable taskId agentId t = true ∧
      (claimOfferedTask taskId agentId now ts).1 =
        some { t with status := TaskStatus.reviewing, lastUpdatedAt := now } := by
  obtain ⟨t₀, ht₀, hc⟩ := h
  have hsome : (ts.find? (taskClaimable taskId agentId)).isSome := by
    rw [List.find?_isSome]
    exact ⟨t₀, ht₀, hc⟩
  obtain ⟨t, hfind⟩ := Option.isSome_iff_exists.mp hsome
  refine ⟨t, hfind, List.find?_some hfind, ?_⟩
  simp [claimOfferedTask, hfind]

theorem claimOfferedTask_of_not_claimable {taskId agentId : String} {now : Nat}
    {ts : List Task} (h : ∀ t ∈ ts, taskClaimable taskId agentId t = false) :
    claimOfferedTask taskId agentId now ts = (none, ts) := by
  have hfind : ts.find? (taskClaimable taskId agentId) = none := by
    rw [List.find?_eq_none]
    intro x hx
    simp [h x hx]
  simp [claimOfferedTask, hfind]

theorem not_claimable_after_claim (taskId agentId : String) (now : Nat)
    (ts : List Task) :
    ∀ u ∈ (claimOfferedTask taskId agentId now ts).2,
      taskClaimable taskId agentId u = false := by
  intro u hu
  unfold claimOfferedTask at hu
  cases hfind : ts.find? (taskClaimable taskId agentId) with
  | none =>
      rw [hfind] at hu
      simp only at hu
      have := List.find?_eq_none.mp hfind u hu
      simpa using this
  | some t =>
      rw [hfind] at hu
      simp only [List.mem_map] at hu
      obtain ⟨v, _, hv⟩ := hu
      by_cases hcv : taskClaimable taskId agentId v = true
      · rw [if_pos hcv] at hv
        subst hv
        simp [taskClaimable]
      · rw [if_neg hcv] at hv
        subst hv
        simpa using hcv

theorem iterClaimTask_all_none {taskId agentId : String} {now : Nat}
    {ts : List Task} (h : ∀ t ∈ ts, taskClaimable taskId agentId t = false) :
    ∀ n, iterClaimTask taskId agentId now n ts = List.replicate n none := by
  intro n
  induction n generalizing ts with
  | zero => simp [iterClaimTask]
  | succ n ih =>
      have hstep := @claimOfferedTask_of_not_claimable taskId agentId now ts h
      simp only [iterClaimTask, hstep]
      rw [ih h]
      simp [List.replicate_succ]

theorem iterClaimTask_exactly_one {taskId agentId : String} {now : Nat}
    {ts : List Task} (h : ∃ t ∈ ts, taskClaimable taskId agentId t = true)
    {n : Nat} (hn : 1 ≤ n) :
    (iterClaimTask taskId agentId now n ts).countP (fun r => r.isSome) = 1 := by
  cases n with
  | zero => omega
  | succ m =>
      obtain ⟨t, hfind, _, hres⟩ := @claimOfferedTask_of_claimable taskId agentId now ts h
      have hrest := @iterClaimTask_all_none taskId agentId now
        (claimOfferedTask taskId agentId now ts).2
        (fun u hu => not_claimable_after_claim taskId agentId now ts u hu) m
      simp only [iterClaimTask, hrest, hres, List.countP_cons]
      have hzero :
          (List.replicate m (none : Option Task)).countP (fun r => r.isSome) = 0 := by
        rw [List.countP_eq_zero]
        intro a ha
        rw [List.eq_of_mem_replicate ha]
        simp
      rw [hzero]
      simp [hres]

/-- C2: `claimOfferedTask(taskId, agentId)` transitions the task
offered→reviewing and returns it if and only if the current status of the task
is `offered` and its `offeredTo` equals `agentId`; in every other case
(status not offered, offered to a different agent, or id absent) it
returns `none` and the store is unchanged; rows not matching the guard are
never modified. -/
theorem claimOfferedTask_offered_iff (taskId agentId : String) (now : Nat)
    (ts : List Task) :
    ((∃ t ∈ ts, t.id = taskId ∧ t.status = TaskStatus.offered ∧
        t.offeredTo = some agentId) →
      ∃ t ∈ ts, t.id = taskId ∧ t.status = TaskStatus.offered ∧
        t.offeredTo = some agentId ∧
        (claimOfferedTask taskId agentId now ts).1 =
          some { t with status := TaskStatus.reviewing, lastUpdatedAt := now } ∧
        { t with status := TaskStatus.reviewing, lastUpdatedAt := now } ∈
          (claimOfferedTask taskId agentId now ts).2) ∧
    ((∀ t ∈ ts, ¬(t.id = taskId ∧ t.status = TaskStatus.offered ∧
        t.offeredTo = some agentId)) →
      claimOfferedTask taskId agentId now ts = (none, ts)) ∧
    (∀ u ∈ ts, ¬(u.id = taskId ∧ u.status = TaskStatus.offered ∧
        u.offeredTo = some agentId) →
      u ∈ (claimOfferedTask taskId agentId now ts).2) := by
  refine ⟨?_, ?_, ?_⟩
  · intro h
    have h' : ∃ t ∈ ts, taskClaimable taskId agentId t = true := by
      obtain ⟨t, ht, hp⟩ := h
      exact ⟨t, ht, taskClaimable_iff.mpr hp⟩
    obtain ⟨t, hfind, hc, hres⟩ := @claimOfferedTask_of_claimable taskId agentId now ts h'
    obtain ⟨hid, hst, hoff⟩ := taskClaimable_iff.mp hc
    have htmem : t ∈ ts := List.mem_of_find?_eq_some hfind
    refine ⟨t, htmem, hid, hst, hoff, hres, ?_⟩
    unfold claimOfferedTask
    rw [hfind]
    simp only [List.mem_map]
    exact ⟨t, htmem, by simp [hc]⟩
  · intro h
    refine @claimOfferedTask_of_not_claimable taskId agentId now ts ?_
    intro t ht
    have := h t ht
    simp only [taskClaimable, decide_eq_false_iff_not]
    exact this
  · intro u hu hnp
    have hcu : taskClaimable taskId agentId u = false := by
      simp only [taskClaimable, decide_eq_false_iff_not]
      exact hnp
    unfold claimOfferedTask
    cases hfind : ts.find? (taskClaimable taskId agentId) with
    | none => simpa using hu
    | some t =>
        simp only [List.mem_map]
        exact ⟨u, hu, by rw [hcu]; simp⟩

/-- Witness for `claimOfferedTask_offered_iff`: a store holding a single
task offered to agent `a1` is claimed by `a1`, yielding the reviewing
copy. -/
theorem claimOfferedTask_offered_iff_witness :
    ∃ t ∈ [(⟨"t1", TaskStatus.offered, some "a1", none, 0⟩ : Task)],
      t.id = "t1" ∧ t.status = TaskStatus.offered ∧ t.offeredTo = some "a1" ∧
      (claimOfferedTask "t1" "a1" 5
          [⟨"t1", TaskStatus.offered, some "a1", none, 0⟩]).1 =
        some { t with status := TaskStatus.reviewing, lastUpdatedAt := 5 } ∧
      { t with status := TaskStatus.reviewing, lastUpdatedAt := 5 } ∈
        (claimOfferedTask "t1" "a1" 5
          [⟨"t1", TaskStatus.offered, some "a1", none, 0⟩]).2 :=
  (claimOfferedTask_offered_iff "t1" "a1" 5
      [⟨"t1", TaskStatus.offered, some "a1", none, 0⟩]).1
    ⟨⟨"t1", TaskStatus.offered, some "a1", none, 0⟩, by decide⟩

/-! ### Inbox messages and their Claim Engine -/

/-- Inbox message status domain of the specification (§3). -/
inductive MsgStatus where
  | unread
  | processing
  | read
  | responded
  | delegated
deriving DecidableEq, Repr

/-- Inbox message row, restricted to the fields the Claim Engine and
Reaper read or write. -/
structure InboxMessage where
  id : String
  agentId : String
  content : String
  status : MsgStatus
  createdAt : Nat
  lastUpdatedAt : Nat
deriving DecidableEq, Repr

/-- Selection guard of `claimInboxMessages`: unread and owned by the
calling agent. -/
def msgUnreadFor (a : String) (m : InboxMessage) : Bool :=
  decide (m.agentId = a ∧ m.status = MsgStatus.unread)

/-- Oldest-first comparison used by the candidate SELECT. -/
def msgOldestFirst (m₁ m₂ : InboxMessage) : Bool :=
  decide (m₁.createdAt ≤ m₂.createdAt)

/-- Modelled from the spec: `claimInboxMessages(agentId, limit)` →
[InboxMessage] (`be/db`, absent from the snapshot; exercised at
`src/unnamed/part_003` 44–274). Selects up to `limit` oldest unread
messages owned by the agent, updates exactly those ids unread→processing
in one statement, and returns the rows the update touched. -/
def claimInboxMessages (a : String) (lim now : Nat) (s : List InboxMessage) :
    List InboxMessage × List InboxMessage :=
  let selected := ((s.filter (msgUnreadFor a)).mergeSort msgOldestFirst).take lim
  let ids : List String := selected.map (fun m => m.id)
  (selected.map fun m => { m with status := MsgStatus.processing, lastUpdatedAt := now },
   s.map fun m =>
     if m.id ∈ ids ∧ m.status = MsgStatus.unread then
       { m with status := MsgStatus.processing, lastUpdatedAt := now }
     else m)

/-- Guard of the Reaper sweep over inbox messages: `processing` held
longer than the timeout. -/
def msgStale (timeout now : Nat) (m : InboxMessage) : Bool :=
  decide (m.status = MsgStatus.processing ∧ m.lastUpdatedAt + timeout < now)

/-- Modelled from the spec: `releaseStaleProcessingInbox(timeout)`
(`be/db`, absent from the snapshot; exercised at `src/unnamed/part_003`
184–216). Restores processing→unread for every stale claim and returns
the release count. -/
def releaseStaleProcessingInbox (timeout now : Nat) (s : List InboxMessage) :
    Nat × List InboxMessage :=
  ((s.filter (msgStale timeout now)).length,
   s.map fun m =>
     if msgStale timeout now m then
       { m with status := MsgStatus.unread, lastUpdatedAt := now }
     else m)

/-- Results of `n` successive `claimInboxMessages` calls, threading the
store state. -/
def iterClaimInbox (a : String) (lim now : Nat) :
    Nat → List InboxMessage → List (List InboxMessage)
  | 0, _ => []
  | Nat.succ n, s =>
      let r := claimInboxMessages a lim now s
      r.1 :: iterClaimInbox a lim now n r.2

theorem msgUnreadFor_iff {a : String} {m : InboxMessage} :
    msgUnreadFor a m = true ↔ m.agentId = a ∧ m.status = MsgStatus.unread := by
  simp [msgUnreadFor]

theorem sortedUnread_pairwise (a : String) (s : List InboxMessage) :
    List.Pairwise (fun m₁ m₂ => m₁.createdAt ≤ m₂.createdAt)
      ((s.filter (msgUnreadFor a)).mergeSort msgOldestFirst) := by
  have h : List.Pairwise (fun m₁ m₂ => msgOldestFirst m₁ m₂ = true)
      ((s.filter (msgUnreadFor a)).mergeSort msgOldestFirst) := by
    apply List.sorted_mergeSort
    · intro x y z hxy hyz
      simp only [msgOldestFirst, decide_eq_true_eq] at *
      omega
    · intro x y
      simpa [msgOldestFirst] using Nat.le_total x.createdAt y.createdAt
  exact h.imp (fun hx => by simpa [msgOldestFirst] using hx)

theorem claimInboxMessages_no_unread {a : String} {lim now : Nat}
    {s : List InboxMessage} (h : ∀ m ∈ s, msgUnreadFor a m = false) :
    claimInboxMessages a lim now s = ([], s) := by
  have hfil : s.filter (msgUnreadFor a) = [] := by
    rw [List.filter_eq_nil_iff]
    intro m hm
    simp [h m hm]
  simp [claimInboxMessages, hfil]

theorem no_unread_after_full_claim {a : String} {lim now : Nat}
    {s : List InboxMessage}
    (hlim : (s.filter (msgUnreadFor a)).length ≤ lim) :
    ∀ m' ∈ (claimInboxMessages a lim now s).2, msgUnreadFor a m' = false := by
  intro m' hm'
  simp only [claimInboxMessages, List.mem_map] at hm'
  obtain ⟨m, hm, hf⟩ := hm'
  have htake :
      ((s.filter (msgUnreadFor a)).mergeSort msgOldestFirst).take lim =
        (s.filter (msgUnreadFor a)).mergeSort msgOldestFirst := by
    apply List.take_of_length_le
    rw [List.length_mergeSort]
    exact hlim
  by_cases hc :
      (∃ x ∈ ((s.filter (msgUnreadFor a)).mergeSort msgOldestFirst).take lim,
        x.id = m.id) ∧ m.status = MsgStatus.unread
  · rw [if_pos hc] at hf
    subst hf
    simp [msgUnreadFor]
  · rw [if_neg hc] at hf
    subst hf
    by_contra hcontra
    rw [Bool.not_eq_false] at hcontra
    obtain ⟨hag, hst⟩ := msgUnreadFor_iff.mp hcontra
    apply hc
    refine ⟨⟨m, ?_, rfl⟩, hst⟩
    rw [htake, List.mem_mergeSort]
    exact List.mem_filter.mpr ⟨hm, msgUnreadFor_iff.mpr ⟨hag, hst⟩⟩

theorem claimInboxMessages_hits {a : String} {lim now : Nat}
    {s : List InboxMessage} {m : InboxMessage}
    (hm : m ∈ s) (hu : msgUnreadFor a m = true)
    (hlim : (s.filter (msgUnreadFor a)).length ≤ lim) :
    ∃ x ∈ (claimInboxMessages a lim now s).1, x.id = m.id := by
  have htake :
      ((s.filter (msgUnreadFor a)).mergeSort msgOldestFirst).take lim =
        (s.filter (msgUnreadFor a)).mergeSort msgOldestFirst := by
    apply List.take_of_length_le
    rw [List.length_mergeSort]
    exact hlim
  refine ⟨{ m with status := MsgStatus.processing, lastUpdatedAt := now }, ?_, rfl⟩
  simp only [claimInboxMessages]
  apply List.mem_map_of_mem
  rw [htake, List.mem_mergeSort]
  exact List.mem_filter.mpr ⟨hm, hu⟩

/-- Store of the specification scenario: three unread inbox messages
owned by lead `L`. -/
def specInboxScenario : List InboxMessage :=
  [⟨"m1", "L", "one", MsgStatus.unread, 1, 1⟩,
   ⟨"m2", "L", "two", MsgStatus.unread, 2, 2⟩,
   ⟨"m3", "L", "three", MsgStatus.unread, 3, 3⟩]

/-- C3: `claimInboxMessages(agentId, limit)` returns at most `limit`
messages and exactly `min limit |unread|` of them — the oldest unread
messages owned by `agentId` in oldest-first order, each transitioned
unread→processing. Every returned message was an unread message of the
agent; when the limit covers the unread set every unread message of the
agent is returned (the spec scenario: 3 messages, limit 5, all 3
returned) and an immediate second call returns `[]`; any unread message
left out is no older than every message returned; and when no unread
message exists the result is the empty list. -/
theorem claimInboxMessages_spec (a : String) (lim now now2 : Nat)
    (s : List InboxMessage) :
    (claimInboxMessages a lim now s).1.length ≤ lim ∧
    (claimInboxMessages a lim now s).1.length =
      min lim (s.filter (msgUnreadFor a)).length ∧
    (∀ m' ∈ (claimInboxMessages a lim now s).1,
      m'.status = MsgStatus.processing ∧ m'.agentId = a ∧
      ∃ m ∈ s, m.agentId = a ∧ m.status = MsgStatus.unread ∧
        m' = { m with status := MsgStatus.processing, lastUpdatedAt := now }) ∧
    List.Pairwise (fun m₁ m₂ => m₁.createdAt ≤ m₂.createdAt)
      (claimInboxMessages a lim now s).1 ∧
    ((s.filter (msgUnreadFor a)).length ≤ lim →
      ∀ m ∈ s, msgUnreadFor a m = true →
        { m with status := MsgStatus.processing, lastUpdatedAt := now } ∈
          (claimInboxMessages a lim now s).1) ∧
    (∀ m ∈ s, msgUnreadFor a m = true →
      (∀ x ∈ (claimInboxMessages a lim now s).1, x.id ≠ m.id) →
      ∀ x ∈ (claimInboxMessages a lim now s).1, x.createdAt ≤ m.createdAt) ∧
    ((∀ m ∈ s, ¬(m.agentId = a ∧ m.status = MsgStatus.unread)) →
      (claimInboxMessages a lim now s).1 = []) ∧
    ((s.filter (msgUnreadFor a)).length ≤ lim →
      (claimInboxMessages a lim now2
        (claimInboxMessages a lim now s).2).1 = []) := by
  refine ⟨?_, ?_, ?_, ?_, ?_, ?_, ?_, ?_⟩
  · simp only [claimInboxMessages, List.length_map, List.length_take]
    omega
  · simp only [claimInboxMessages, List.length_map, List.length_take,
      List.length_mergeSort]
  · intro m' hm'
    simp only [claimInboxMessages, List.mem_map] at hm'
    obtain ⟨m, hmem, hf⟩ := hm'
    have hmem' : m ∈ (s.filter (msgUnreadFor a)).mergeSort msgOldestFirst :=
      List.mem_of_mem_take hmem
    have hmem'' : m ∈ s.filter (msgUnreadFor a) :=
      List.mem_mergeSort.mp hmem'
    obtain ⟨hms, hmu⟩ := List.mem_filter.mp hmem''
    obtain ⟨hag, hst⟩ := msgUnreadFor_iff.mp hmu
    subst hf
    exact ⟨rfl, hag, m, hms, hag, hst, rfl⟩
  · simp only [claimInboxMessages]
    rw [List.pairwise_map]
    have hsorted := sortedUnread_pairwise a s
    have htake := hsorted.sublist (List.take_sublist lim _)
    exact htake.imp (fun hx => by simpa using hx)
  · intro hlim m hm hmu
    have htake :
        ((s.filter (msgUnreadFor a)).mergeSort msgOldestFirst).take lim =
          (s.filter (msgUnreadFor a)).mergeSort msgOldestFirst := by
      apply List.take_of_length_le
      rw [List.length_mergeSort]
      exact hlim
    simp only [claimInboxMessages, List.mem_map]
    refine ⟨m, ?_, rfl⟩
    rw [htake, List.mem_mergeSort]
    exact List.mem_filter.mpr ⟨hm, hmu⟩
  · intro m hm hmu hnotin x hx
    simp only [claimInboxMessages, List.mem_map] at hx
    obtain ⟨y, hy, hxy⟩ := hx
    have hmem_sorted : m ∈ (s.filter (msgUnreadFor a)).mergeSort
        msgOldestFirst := by
      rw [List.mem_mergeSort]
      exact List.mem_filter.mpr ⟨hm, hmu⟩
    have hmnotin : m ∉ ((s.filter (msgUnreadFor a)).mergeSort
        msgOldestFirst).take lim := by
      intro hmtake
      refine hnotin
        { m with status := MsgStatus.processing, lastUpdatedAt := now }
        ?_ rfl
      simp only [claimInboxMessages, List.mem_map]
      exact ⟨m, hmtake, rfl⟩
    have hmdrop : m ∈ ((s.filter (msgUnreadFor a)).mergeSort
        msgOldestFirst).drop lim := by
      have hsplit := List.take_append_drop lim
        ((s.filter (msgUnreadFor a)).mergeSort msgOldestFirst)
      rw [← hsplit, List.mem_append] at hmem_sorted
      rcases hmem_sorted with h | h
      · exact absurd h hmnotin
      · exact h
    have hpair : ∀ u ∈ ((s.filter (msgUnreadFor a)).mergeSort
        msgOldestFirst).take lim,
        ∀ v ∈ ((s.filter (msgUnreadFor a)).mergeSort msgOldestFirst).drop lim,
        u.createdAt ≤ v.createdAt := by
      have hs : List.Pairwise (fun m₁ m₂ => m₁.createdAt ≤ m₂.createdAt)
          (((s.filter (msgUnreadFor a)).mergeSort msgOldestFirst).take lim ++
           ((s.filter (msgUnreadFor a)).mergeSort msgOldestFirst).drop lim) := by
        rw [List.take_append_drop]
        exact sortedUnread_pairwise a s
      exact (List.pairwise_append.mp hs).2.2
    rw [← hxy]
    exact hpair y hy m hmdrop
  · intro h
    have hfil : s.filter (msgUnreadFor a) = [] := by
      rw [List.filter_eq_nil_iff]
      intro m hm
      simp only [msgUnreadFor, decide_eq_true_eq]
      exact h m hm
    simp [claimInboxMessages, hfil]
  · intro hlim
    have hempty := @no_unread_after_full_claim a lim now s hlim
    rw [@claimInboxMessages_no_unread a lim now2
      (claimInboxMessages a lim now s).2 hempty]

/-- Witness for `claimInboxMessages_spec`: the specification scenario —
three unread messages for lead `L`, limit 5: all three come back as
`processing`, the count is `min 5 3`, and an immediate second call
returns `[]`. -/
theorem claimInboxMessages_spec_witness :
    ({ id := "m1", agentId := "L", content := "one",
       status := MsgStatus.processing, createdAt := 1, lastUpdatedAt := 7 } :
      InboxMessage) ∈ (claimInboxMessages "L" 5 7 specInboxScenario).1 ∧
    ({ id := "m2", agentId := "L", content := "two",
       status := MsgStatus.processing, createdAt := 2, lastUpdatedAt := 7 } :
      InboxMessage) ∈ (claimInboxMessages "L" 5 7 specInboxScenario).1 ∧
    ({ id := "m3", agentId := "L", content := "three",
       status := MsgStatus.processing, createdAt := 3, lastUpdatedAt := 7 } :
      InboxMessage) ∈ (claimInboxMessages "L" 5 7 specInboxScenario).1 ∧
    (claimInboxMessages "L" 5 7 specInboxScenario).1.length =
      min 5 ((specInboxScenario.filter (msgUnreadFor "L")).length) ∧
    (claimInboxMessages "L" 5 9
      (claimInboxMessages "L" 5 7 specInboxScenario).2).1 = [] :=
  ⟨(claimInboxMessages_spec "L" 5 7 9 specInboxScenario).2.2.2.2.1
     (by decide) ⟨"m1", "L", "one", MsgStatus.unread, 1, 1⟩
     (by decide) (by decide),
   (claimInboxMessages_spec "L" 5 7 9 specInboxScenario).2.2.2.2.1
     (by decide) ⟨"m2", "L", "two", MsgStatus.unread, 2, 2⟩
     (by decide) (by decide),
   (claimInboxMessages_spec "L" 5 7 9 specInboxScenario).2.2.2.2.1
     (by decide) ⟨"m3", "L", "three", MsgStatus.unread, 3, 3⟩
     (by decide) (by decide),
   (claimInboxMessages_spec "L" 5 7 9 specInboxScenario).2.1,
   (claimInboxMessages_spec "L" 5 7 9 specInboxScenario).2.2.2.2.2.2.2
     (by decide)⟩

theorem iterClaimInbox_all_empty {a : String} {lim now : Nat}
    {s : List InboxMessage} (h : ∀ m ∈ s, msgUnreadFor a m = false) :
    ∀ n, iterClaimInbox a lim now n s = List.replicate n [] := by
  intro n
  induction n generalizing s with
  | zero => simp [iterClaimInbox]
  | succ n ih =>
      have hstep := @claimInboxMessages_no_unread a lim now s h
      simp only [iterClaimInbox, hstep]
      rw [ih h]
      simp [List.replicate_succ]

theorem iterClaimInbox_exactly_one {a : String} {lim now : Nat}
    {s : List InboxMessage} {m : InboxMessage}
    (hm : m ∈ s) (hu : msgUnreadFor a m = true)
    (hlim : (s.filter (msgUnreadFor a)).length ≤ lim)
    {n : Nat} (hn : 1 ≤ n) :
    (iterClaimInbox a lim now n s).countP
      (fun res => decide (∃ x ∈ res, x.id = m.id)) = 1 := by
  cases n with
  | zero => omega
  | succ k =>
      have hhit := @claimInboxMessages_hits a lim now s m hm hu hlim
      have hrest := @iterClaimInbox_all_empty a lim now
        (claimInboxMessages a lim now s).2
        (@no_unread_after_full_claim a lim now s hlim) k
      simp only [iterClaimInbox, hrest, List.countP_cons]
      have hzero :
          (List.replicate k ([] : List InboxMessage)).countP
            (fun res => decide (∃ x ∈ res, x.id = m.id)) = 0 := by
        rw [List.countP_eq_zero]
        intro res hres
        rw [List.eq_of_mem_replicate hres]
        simp
      rw [hzero]
      simp [hhit]

/-! ### Channel read state and the mention Claim Engine -/

/-- Per (agent, channel) read-state row of the store. A non-null
`processingSince` marks an in-flight claim on the unread
mentions of that channel. -/
structure ChanRead where
  agentId : String
  channelId : String
  lastReadAt : Nat
  processingSince : Option Nat
deriving DecidableEq, Repr

/-- Channel message mention, reduced to what `claimMentions` queries: the
channel, the mentioned agent, and the message timestamp. -/
structure Mention where
  channelId : String
  agentId : String
  createdAt : Nat
deriving DecidableEq, Repr

/-- State touched by `claimMentions`: read-state rows plus the mention
rows derived from channel messages. -/
structure MentionState where
  reads : List ChanRead
  mentions : List Mention
deriving DecidableEq, Repr

/-- Row selector for the (agent, channel) read-state row. -/
def readRowFor (a c : String) (r : ChanRead) : Bool :=
  decide (r.agentId = a ∧ r.channelId = c)

/-- Last-read timestamp for (agent, channel); a missing row reads as 0
(never read). -/
def lastReadAtFor (reads : List ChanRead) (a c : String) : Nat :=
  match reads.find? (readRowFor a c) with
  | some r => r.lastReadAt
  | none => 0

/-- Claim marker for (agent, channel); a missing row reads as null. -/
def processingFor (reads : List ChanRead) (a c : String) : Option Nat :=
  match reads.find? (readRowFor a c) with
  | some r => r.processingSince
  | none => none

/-- Mention-newer-than-lastRead test for one channel. -/
def hasNewMention (mentions : List Mention) (reads : List ChanRead)
    (a c : String) : Bool :=
  let lr := lastReadAtFor reads a c
  mentions.any fun m => decide (m.channelId = c ∧ m.agentId = a ∧ lr < m.createdAt)

/-- Guarded upsert setting `processingSince` for (agent, channel). -/
def setProcessing (a c : String) (now : Nat) (reads : List ChanRead) :
    List ChanRead :=
  if reads.any (readRowFor a c) then
    reads.map fun r =>
      if readRowFor a c r then { r with processingSince := some now } else r
  else
    { agentId := a, channelId := c, lastReadAt := 0,
      processingSince := some now } :: reads

/-- Fold of the per-channel guarded upsert, threading the read-state
rows. -/
def claimMentionsGo (a : String) (now : Nat) (mentions : List Mention) :
    List String → List ChanRead → List (String × Nat) × List ChanRead
  | [], reads => ([], reads)
  | c :: cs, reads =>
      if hasNewMention mentions reads a c = true ∧ processingFor reads a c = none then
        let rest := claimMentionsGo a now mentions cs (setProcessing a c now reads)
        ((c, lastReadAtFor reads a c) :: rest.1, rest.2)
      else
        claimMentionsGo a now mentions cs reads

/-- Modelled from the spec: `claimMentions(agentId)` → [{channelId,
lastReadAt}] (`be/db`, absent from the snapshot; exercised at
`src/unnamed/part_003` 446–631). For each channel carrying a mention of
the agent newer than its lastReadAt, attempt the upsert guarded by
`processingSince IS NULL`, returning only channels where the write
succeeded. -/
def claimMentions (a : String) (now : Nat) (st : MentionState) :
    List (String × Nat) × MentionState :=
  let channels := (st.mentions.filter fun m => decide (m.agentId = a)).map
    (fun m => m.channelId)
  let r := claimMentionsGo a now st.mentions channels st.reads
  (r.1, { st with reads := r.2 })

/-- Results of `n` successive `claimMentions` calls, threading state. -/
def iterClaimMentions (a : String) (now : Nat) :
    Nat → MentionState → List (List (String × Nat))
  | 0, _ => []
  | Nat.succ n, st =>
      let r := claimMentions a now st
      r.1 :: iterClaimMentions a now n r.2

theorem find?_map_update_ne {a c c' : String} {now : Nat} (hne : c' ≠ c) :
    ∀ reads : List ChanRead,
      (reads.map fun r =>
        if readRowFor a c' r then { r with processingSince := some now }
        else r).find? (readRowFor a c) =
      reads.find? (readRowFor a c)
  | [] => by simp
  | r :: rl => by
      have hproj :
          readRowFor a c
            (if readRowFor a c' r then { r with processingSince := some now }
             else r) = readRowFor a c r := by
        by_cases h : readRowFor a c' r = true
        · rw [if_pos h]
          simp [readRowFor]
        · rw [if_neg h]
      simp only [List.map_cons]
      cases hc : readRowFor a c r with
      | false =>
          rw [List.find?_cons_of_neg, List.find?_cons_of_neg]
          · exact find?_map_update_ne hne rl
          · simp [hc]
          · simp [hproj, hc]
      | true =>
          have hr' : readRowFor a c' r = false := by
            have hcc : r.channelId = c := by
              have := (by simpa [readRowFor] using hc :
                r.agentId = a ∧ r.channelId = c)
              exact this.2
            simp [readRowFor, hcc, Ne.symm hne]
          rw [if_neg (by simp [hr'])]
          rw [List.find?_cons_of_pos, List.find?_cons_of_pos]
          · simp [hc]
          · simp [hc]

theorem find?_setProcessing_ne {a c c' : String} {now : Nat} (hne : c' ≠ c)
    (reads : List ChanRead) :
    (setProcessing a c' now reads).find? (readRowFor a c) =
      reads.find? (readRowFor a c) := by
  unfold setProcessing
  by_cases hany : reads.any (readRowFor a c') = true
  · rw [if_pos hany]
    exact find?_map_update_ne hne reads
  · rw [if_neg hany]
    have hhead : readRowFor a c
        ({ agentId := a, channelId := c', lastReadAt := 0,
           processingSince := some now } : ChanRead) = false := by
      simp [readRowFor, hne]
    rw [List.find?_cons_of_neg]
    simp [hhead]

theorem processingFor_setProcessing_ne {a c c' : String} {now : Nat}
    (hne : c' ≠ c) (reads : List ChanRead) :
    processingFor (setProcessing a c' now reads) a c =
      processingFor reads a c := by
  unfold processingFor
  rw [find?_setProcessing_ne hne]

theorem lastReadAtFor_setProcessing_ne {a c c' : String} {now : Nat}
    (hne : c' ≠ c) (reads : List ChanRead) :
    lastReadAtFor (setProcessing a c' now reads) a c =
      lastReadAtFor reads a c := by
  unfold lastReadAtFor
  rw [find?_setProcessing_ne hne]

theorem hasNewMention_setProcessing_ne {a c c' : String} {now : Nat}
    (hne : c' ≠ c) (mentions : List Mention) (reads : List ChanRead) :
    hasNewMention mentions (setProcessing a c' now reads) a c =
      hasNewMention mentions reads a c := by
  unfold hasNewMention
  rw [lastReadAtFor_setProcessing_ne hne]

theorem processingFor_map_update {a c : String} {now : Nat} :
    ∀ reads : List ChanRead, reads.any (readRowFor a c) = true →
      processingFor
        (reads.map fun r =>
          if readRowFor a c r then { r with processingSince := some now }
          else r) a c = some now
  | [], h => by simp at h
  | r :: rl, h => by
      simp only [List.map_cons]
      unfold processingFor
      by_cases hr : readRowFor a c r = true
      · have hproj : readRowFor a c
            ({ r with processingSince := some now } : ChanRead) = true := by
          simpa [readRowFor] using hr
        rw [if_pos hr, List.find?_cons_of_pos _ hproj]
      · have hany : rl.any (readRowFor a c) = true := by
          simp only [List.any_cons, hr] at h
          simpa using h
        rw [if_neg hr, List.find?_cons_of_neg]
        · have := @processingFor_map_update a c now rl hany
          unfold processingFor at this
          exact this
        · simp [hr]

theorem processingFor_setProcessing_self (a c : String) (now : Nat)
    (reads : List ChanRead) :
    processingFor (setProcessing a c now reads) a c = some now := by
  unfold setProcessing
  by_cases hany : reads.any (readRowFor a c) = true
  · rw [if_pos hany]
    exact processingFor_map_update reads hany
  · rw [if_neg hany]
    unfold processingFor
    have hhead : readRowFor a c
        ({ agentId := a, channelId := c, lastReadAt := 0,
           processingSince := some now } : ChanRead) = true := by
      simp [readRowFor]
    rw [List.find?_cons_of_pos _ hhead]

theorem claimMentionsGo_misses {a c : String} {now : Nat}
    {mentions : List Mention} :
    ∀ (L : List String) (reads : List ChanRead),
      processingFor reads a c ≠ none →
      (∀ p ∈ (claimMentionsGo a now mentions L reads).1, p.1 ≠ c) ∧
      processingFor (claimMentionsGo a now mentions L reads).2 a c =
        processingFor reads a c
  | [], reads, h => by
      simp [claimMentionsGo]
  | c₀ :: cs, reads, h => by
      by_cases hg : hasNewMention mentions reads a c₀ = true ∧
          processingFor reads a c₀ = none
      · have hne : c₀ ≠ c := by
          intro hEq
          subst hEq
          exact h hg.2
        have hpres : processingFor (setProcessing a c₀ now reads) a c =
            processingFor reads a c := processingFor_setProcessing_ne hne reads
        have ih := @claimMentionsGo_misses a c now mentions cs
          (setProcessing a c₀ now reads) (by rw [hpres]; exact h)
        simp only [claimMentionsGo, if_pos hg]
        constructor
        · intro p hp
          rcases List.mem_cons.mp hp with hp | hp
          · rw [hp]
            exact hne
          · exact ih.1 p hp
        · rw [ih.2, hpres]
      · simp only [claimMentionsGo, if_neg hg]
        exact claimMentionsGo_misses cs reads h

theorem claimMentionsGo_hits {a c : String} {now : Nat}
    {mentions : List Mention} :
    ∀ (L : List String) (reads : List ChanRead),
      c ∈ L →
      hasNewMention mentions reads a c = true →
      processingFor reads a c = none →
      (∃ p ∈ (claimMentionsGo a now mentions L reads).1, p.1 = c) ∧
      processingFor (claimMentionsGo a now mentions L reads).2 a c ≠ none
  | [], _, hmem, _, _ => by simp at hmem
  | c₀ :: cs, reads, hmem, hnew, hfree => by
      by_cases hc₀ : c₀ = c
      · subst hc₀
        have hg : hasNewMention mentions reads a c₀ = true ∧
            processingFor reads a c₀ = none := ⟨hnew, hfree⟩
        simp only [claimMentionsGo, if_pos hg]
        have hset : processingFor (setProcessing a c₀ now reads) a c₀ =
            some now := processingFor_setProcessing_self a c₀ now reads
        have hrest := @claimMentionsGo_misses a c₀ now mentions cs
          (setProcessing a c₀ now reads) (by rw [hset]; simp)
        constructor
        · exact ⟨(c₀, lastReadAtFor reads a c₀), List.mem_cons_self _ _, rfl⟩
        · rw [hrest.2, hset]
          simp
      · have hmem' : c ∈ cs := by
          rcases List.mem_cons.mp hmem with hEq | hmem'
          · exact absurd hEq.symm hc₀
          · exact hmem'
        by_cases hg : hasNewMention mentions reads a c₀ = true ∧
            processingFor reads a c₀ = none
        · have hnew' : hasNewMention mentions (setProcessing a c₀ now reads) a c
              = true := by
            rw [hasNewMention_setProcessing_ne hc₀]
            exact hnew
          have hfree' : processingFor (setProcessing a c₀ now reads) a c
              = none := by
            rw [processingFor_setProcessing_ne hc₀]
            exact hfree
          have ih := @claimMentionsGo_hits a c now mentions cs
            (setProcessing a c₀ now reads) hmem' hnew' hfree'
          simp only [claimMentionsGo, if_pos hg]
          constructor
          · obtain ⟨p, hp, hpc⟩ := ih.1
            exact ⟨p, List.mem_cons_of_mem _ hp, hpc⟩
          · exact ih.2
        · simp only [claimMentionsGo, if_neg hg]
          exact claimMentionsGo_hits cs reads hmem' hnew hfree

theorem claimMentions_hits {a c : String} {now : Nat} {st : MentionState}
    (hnew : hasNewMention st.mentions st.reads a c = true)
    (hfree : processingFor st.reads a c = none) :
    (∃ p ∈ (claimMentions a now st).1, p.1 = c) ∧
    processingFor (claimMentions a now st).2.reads a c ≠ none ∧
    (claimMentions a now st).2.mentions = st.mentions := by
  have hcmem : c ∈ (st.mentions.filter fun m => decide (m.agentId = a)).map
      (fun m => m.channelId) := by
    unfold hasNewMention at hnew
    simp only [List.any_eq_true, decide_eq_true_eq] at hnew
    obtain ⟨m, hm, hmc, hma, _⟩ := hnew
    rw [List.mem_map]
    exact ⟨m, List.mem_filter.mpr ⟨hm, by simp [hma]⟩, hmc⟩
  have h := @claimMentionsGo_hits a c now st.mentions
    ((st.mentions.filter fun m => decide (m.agentId = a)).map
      (fun m => m.channelId))
    st.reads hcmem hnew hfree
  exact ⟨h.1, h.2, rfl⟩

theorem claimMentions_misses {a c : String} {now : Nat} {st : MentionState}
    (h : processingFor st.reads a c ≠ none) :
    (∀ p ∈ (claimMentions a now st).1, p.1 ≠ c) ∧
    processingFor (claimMentions a now st).2.reads a c =
      processingFor st.reads a c ∧
    (claimMentions a now st).2.mentions = st.mentions := by
  have hm := @claimMentionsGo_misses a c now st.mentions
    ((st.mentions.filter fun m => decide (m.agentId = a)).map
      (fun m => m.channelId))
    st.reads h
  exact ⟨hm.1, hm.2, rfl⟩

theorem iterClaimMentions_all_miss {a c : String} {now : Nat} :
    ∀ (n : Nat) (st : MentionState), processingFor st.reads a c ≠ none →
      (iterClaimMentions a now n st).countP
        (fun res => decide (∃ p ∈ res, p.1 = c)) = 0
  | 0, _, _ => by simp [iterClaimMentions]
  | Nat.succ n, st, h => by
      have hm := @claimMentions_misses a c now st h
      have hnext : processingFor (claimMentions a now st).2.reads a c ≠ none := by
        rw [hm.2.1]
        exact h
      simp only [iterClaimMentions, List.countP_cons]
      rw [iterClaimMentions_all_miss n (claimMentions a now st).2 hnext]
      have : (decide (∃ p ∈ (claimMentions a now st).1, p.1 = c)) = false := by
        simp only [decide_eq_false_iff_not]
        intro ⟨p, hp, hpc⟩
        exact hm.1 p hp hpc
      simp [this]

theorem iterClaimMentions_exactly_one {a c : String} {now : Nat}
    {st : MentionState}
    (hnew : hasNewMention st.mentions st.reads a c = true)
    (hfree : processingFor st.reads a c = none)
    {n : Nat} (hn : 1 ≤ n) :
    (iterClaimMentions a now n st).countP
      (fun res => decide (∃ p ∈ res, p.1 = c)) = 1 := by
  cases n with
  | zero => omega
  | succ k =>
      have hh := @claimMentions_hits a c now st hnew hfree
      have hrest := @iterClaimMentions_all_miss a c now k
        (claimMentions a now st).2 hh.2.1
      simp only [iterClaimMentions, List.countP_cons, hrest]
      have : (decide (∃ p ∈ (claimMentions a now st).1, p.1 = c)) = true := by
        simpa using hh.1
      simp [this]

/-- C1: for every fixed claimable record — an offered task, an unread
inbox message, or an unread-mention channel — and every number `n ≥ 1` of
sequential calls to its claim function (the serialized order imposed on any interleaving by the atomic
conditional updates of the store), exactly one call
succeeds and the other `n − 1` return a miss. -/
theorem atMostOnceClaim
    (taskId agentId : String) (now : Nat) (ts : List Task)
    (a : String) (lim nowI : Nat) (s : List InboxMessage) (m : InboxMessage)
    (aM c : String) (nowM : Nat) (st : MentionState)
    (n : Nat) (hn : 1 ≤ n)
    (htask : ∃ t ∈ ts, taskClaimable taskId agentId t = true)
    (hm : m ∈ s) (hu : msgUnreadFor a m = true)
    (hlim : (s.filter (msgUnreadFor a)).length ≤ lim)
    (hnew : hasNewMention st.mentions st.reads aM c = true)
    (hfree : processingFor st.reads aM c = none) :
    (iterClaimTask taskId agentId now n ts).countP (fun r => r.isSome) = 1 ∧
    (iterClaimInbox a lim nowI n s).countP
      (fun res => decide (∃ x ∈ res, x.id = m.id)) = 1 ∧
    (iterClaimMentions aM nowM n st).countP
      (fun res => decide (∃ p ∈ res, p.1 = c)) = 1 :=
  ⟨iterClaimTask_exactly_one htask hn,
   iterClaimInbox_exactly_one hm hu hlim hn,
   iterClaimMentions_exactly_one hnew hfree hn⟩

/-- Witness for `atMostOnceClaim`: three sequential claim calls on a
one-task store, a one-message inbox, and a single unread-mention channel
each succeed exactly once. -/
theorem atMostOnceClaim_witness :
    (iterClaimTask "t1" "w1" 9 3
        [⟨"t1", TaskStatus.offered, some "w1", none, 0⟩]).countP
      (fun r => r.isSome) = 1 ∧
    (iterClaimInbox "L" 5 9 3
        [⟨"m1", "L", "hi", MsgStatus.unread, 0, 0⟩]).countP
      (fun res => decide (∃ x ∈ res, x.id = "m1")) = 1 ∧
    (iterClaimMentions "L" 9 3 ⟨[], [⟨"ch1", "L", 3⟩]⟩).countP
      (fun res => decide (∃ p ∈ res, p.1 = "ch1")) = 1 :=
  atMostOnceClaim "t1" "w1" 9
    [⟨"t1", TaskStatus.offered, some "w1", none, 0⟩]
    "L" 5 9 [⟨"m1", "L", "hi", MsgStatus.unread, 0, 0⟩]
    ⟨"m1", "L", "hi", MsgStatus.unread, 0, 0⟩
    "L" "ch1" 9 ⟨[], [⟨"ch1", "L", 3⟩]⟩
    3 (by decide)
    ⟨⟨"t1", TaskStatus.offered, some "w1", none, 0⟩, by decide⟩
    (by decide) (by decide) (by decide) (by decide) (by decide)

/-- C4: for a task stuck in `reviewing` and an inbox message stuck in
`processing` whose claim ages exceed the timeout, the matching Reaper
function restores the pre-claim status (reviewing→offered,
processing→unread) and returns a release count covering them, after which
the same claim call succeeds again and yields the same record id. -/
theorem staleClaimRoundTrip (timeout now now2 : Nat) (aT a : String)
    (ts : List Task) (t : Task) (s : List InboxMessage) (m : InboxMessage)
    (lim : Nat)
    (ht : t ∈ ts) (htr : t.status = TaskStatus.reviewing)
    (hto : t.offeredTo = some aT) (htstale : t.lastUpdatedAt + timeout < now)
    (hm : m ∈ s) (hmp : m.status = MsgStatus.processing) (hma : m.agentId = a)
    (hmstale : m.lastUpdatedAt + timeout < now)
    (hlim : (((releaseStaleProcessingInbox timeout now s).2).filter
      (msgUnreadFor a)).length ≤ lim) :
    1 ≤ (releaseStaleReviewingTasks timeout now ts).1 ∧
    { t with status := TaskStatus.offered, lastUpdatedAt := now } ∈
      (releaseStaleReviewingTasks timeout now ts).2 ∧
    (∃ t'', (claimOfferedTask t.id aT now2
        (releaseStaleReviewingTasks timeout now ts).2).1 = some t'' ∧
      t''.id = t.id ∧ t''.status = TaskStatus.reviewing) ∧
    1 ≤ (releaseStaleProcessingInbox timeout now s).1 ∧
    { m with status := MsgStatus.unread, lastUpdatedAt := now } ∈
      (releaseStaleProcessingInbox timeout now s).2 ∧
    (∃ x ∈ (claimInboxMessages a lim now2
        (releaseStaleProcessingInbox timeout now s).2).1, x.id = m.id) := by
  have hstale : taskStale timeout now t = true := by
    simp [taskStale, htr, htstale]
  have hmstale' : msgStale timeout now m = true := by
    simp [msgStale, hmp, hmstale]
  have htrel : { t with status := TaskStatus.offered, lastUpdatedAt := now } ∈
      (releaseStaleReviewingTasks timeout now ts).2 := by
    simp only [releaseStaleReviewingTasks]
    have := List.mem_map_of_mem (fun u =>
      if taskStale timeout now u then
        { u with status := TaskStatus.offered, lastUpdatedAt := now }
      else u) ht
    simpa [hstale] using this
  have hmrel : { m with status := MsgStatus.unread, lastUpdatedAt := now } ∈
      (releaseStaleProcessingInbox timeout now s).2 := by
    simp only [releaseStaleProcessingInbox]
    have := List.mem_map_of_mem (fun u =>
      if msgStale timeout now u then
        { u with status := MsgStatus.unread, lastUpdatedAt := now }
      else u) hm
    simpa [hmstale'] using this
  refine ⟨?_, htrel, ?_, ?_, hmrel, ?_⟩
  · simp only [releaseStaleReviewingTasks]
    have : t ∈ ts.filter (taskStale timeout now) :=
      List.mem_filter.mpr ⟨ht, hstale⟩
    have := List.length_pos_of_mem this
    omega
  · have hclaimable : taskClaimable t.id aT
        { t with status := TaskStatus.offered, lastUpdatedAt := now } = true := by
      simp [taskClaimable, hto]
    obtain ⟨t', hfind, hc', hres⟩ := @claimOfferedTask_of_claimable t.id aT now2
      (releaseStaleReviewingTasks timeout now ts).2 ⟨_, htrel, hclaimable⟩
    obtain ⟨hid, hst, _⟩ := taskClaimable_iff.mp hc'
    exact ⟨{ t' with status := TaskStatus.reviewing, lastUpdatedAt := now2 },
      hres, hid, rfl⟩
  · simp only [releaseStaleProcessingInbox]
    have : m ∈ s.filter (msgStale timeout now) :=
      List.mem_filter.mpr ⟨hm, hmstale'⟩
    have := List.length_pos_of_mem this
    omega
  · have hur : msgUnreadFor a
        { m with status := MsgStatus.unread, lastUpdatedAt := now } = true := by
      simp [msgUnreadFor, hma]
    obtain ⟨x, hx, hxid⟩ := @claimInboxMessages_hits a lim now2
      (releaseStaleProcessingInbox timeout now s).2
      { m with status := MsgStatus.unread, lastUpdatedAt := now }
      hmrel hur hlim
    exact ⟨x, hx, hxid⟩

/-- Witness for `staleClaimRoundTrip`: one stale reviewing task and one
stale processing message are released by the Reaper and successfully
reclaimed. -/
theorem staleClaimRoundTrip_witness :
    1 ≤ (releaseStaleReviewingTasks 10 100 [⟨"t1", TaskStatus.reviewing,
      some "w1", none, 2⟩]).1 ∧
    ({ id := "t1", status := TaskStatus.offered, offeredTo := some "w1",
       agentId := none, lastUpdatedAt := 100 } : Task) ∈
      (releaseStaleReviewingTasks 10 100 [⟨"t1", TaskStatus.reviewing,
        some "w1", none, 2⟩]).2 ∧
    (∃ t'', (claimOfferedTask "t1" "w1" 120
        (releaseStaleReviewingTasks 10 100 [⟨"t1", TaskStatus.reviewing,
          some "w1", none, 2⟩]).2).1 = some t'' ∧
      t''.id = "t1" ∧ t''.status = TaskStatus.reviewing) ∧
    1 ≤ (releaseStaleProcessingInbox 10 100 [⟨"m1", "L", "hi",
      MsgStatus.processing, 1, 2⟩]).1 ∧
    ({ id := "m1", agentId := "L", content := "hi",
       status := MsgStatus.unread, createdAt := 1,
       lastUpdatedAt := 100 } : InboxMessage) ∈
      (releaseStaleProcessingInbox 10 100 [⟨"m1", "L", "hi",
        MsgStatus.processing, 1, 2⟩]).2 ∧
    (∃ x ∈ (claimInboxMessages "L" 1 120
        (releaseStaleProcessingInbox 10 100 [⟨"m1", "L", "hi",
          MsgStatus.processing, 1, 2⟩]).2).1, x.id = "m1") :=
  staleClaimRoundTrip 10 100 120 "w1" "L"
    [⟨"t1", TaskStatus.reviewing, some "w1", none, 2⟩]
    ⟨"t1", TaskStatus.reviewing, some "w1", none, 2⟩
    [⟨"m1", "L", "hi", MsgStatus.processing, 1, 2⟩]
    ⟨"m1", "L", "hi", MsgStatus.processing, 1, 2⟩
    1 (by decide) (by decide) (by decide) (by decide) (by decide)
    (by decide) (by decide) (by decide) (by decide)

/-! ### The poll loop (`src/commands/runner.ts`) -/

/-- Trigger payload as the runner receives it from `GET /api/poll`
(`runner.ts` 58–65). The JSON cast at `runner.ts` 132 is unchecked, so
the type tag is an arbitrary string at runtime. -/
structure Trigger where
  type : String
  taskId : Option String
  mentionsCount : Option Nat
  count : Option Nat
deriving DecidableEq, Repr

/-- TypeScript template-literal interpolation of a possibly-undefined
string value. -/
def tsInterpolate : Option String → String
  | some s => s
  | none => "undefined"

/-- Translation of `buildPromptForTrigger` (`runner.ts` 147–168). -/
def buildPromptForTrigger (trigger : Trigger) (defaultPrompt : String) :
    String :=
  if trigger.type = "task_assigned" then
    "/work-on-task " ++ tsInterpolate trigger.taskId
  else if trigger.type = "task_offered" then
    "/review-offered-task " ++ tsInterpolate trigger.taskId
  else if trigger.type = "unread_mentions" then
    "/swarm-chat"
  else if trigger.type = "pool_tasks_available" then
    defaultPrompt
  else
    defaultPrompt

/-- Outcome of one poll attempt inside `pollForTrigger` (`runner.ts`
119–141): the fetch may reject, return a non-ok status, or return a
JSON body whose `trigger` field is null or a payload. -/
inductive PollAttempt where
  | fetchFailure
  | badStatus (status : Nat)
  | ok (trigger : Option Trigger)
deriving DecidableEq, Repr

/-- An attempt that returns a trigger. -/
def isTriggerHit : PollAttempt → Bool
  | PollAttempt.ok (some _) => true
  | _ => false

/-- Translation of the `while (Date.now() - startTime < pollTimeout)`
loop of `pollForTrigger` (`runner.ts` 110–144): the deadline is checked
before each attempt; a returned trigger exits immediately; every other
outcome (fetch rejection, non-ok status, null trigger) sleeps
`pollInterval` and retries. `elapsed` accumulates the sleeps; the
attempt list is the stream of poll outcomes observed by the window. -/
def pollGo (pollInterval pollTimeout : Nat) :
    List PollAttempt → Nat → Option Trigger
  | [], _ => none
  | att :: rest, elapsed =>
      if pollTimeout ≤ elapsed then none
      else
        match att with
        | PollAttempt.ok (some t) => some t
        | PollAttempt.ok none => pollGo pollInterval pollTimeout rest (elapsed + pollInterval)
        | PollAttempt.badStatus _ => pollGo pollInterval pollTimeout rest (elapsed + pollInterval)
        | PollAttempt.fetchFailure => pollGo pollInterval pollTimeout rest (elapsed + pollInterval)

/-- `pollForTrigger` (`runner.ts` 110–144): one poll window starting at
elapsed time 0. -/
def pollForTrigger (attempts : List PollAttempt)
    (pollInterval pollTimeout : Nat) : Option Trigger :=
  pollGo pollInterval pollTimeout attempts 0

/-- What the outer `while (true)` loop (`runner.ts` 355–369) does with a
poll result. -/
inductive LoopAction where
  | pollAgain
  | dispatch (prompt : String)
deriving DecidableEq, Repr

/-- One step of the outer loop: a null poll result restarts polling
(`runner.ts` 366–369); a trigger is dispatched with its prompt
(`runner.ts` 371–401). -/
def runnerLoopStep (defaultPrompt : String) :
    Option Trigger → LoopAction
  | none => LoopAction.pollAgain
  | some t => LoopAction.dispatch (buildPromptForTrigger t defaultPrompt)

/-- Startup outcome of `runAgent` before the poll loop. -/
inductive StartOutcome where
  | enterPollLoop
  | exitProcess (code : Nat)
deriving DecidableEq, Repr

/-- Translation of the registration step (`runner.ts` 338–353):
`registerAgent` throws on any failed transport call, and the catch block
logs and calls `process.exit(1)`. -/
def runAgentStart (registerSucceeded : Bool) : StartOutcome :=
  if registerSucceeded then StartOutcome.enterPollLoop
  else StartOutcome.exitProcess 1

theorem pollGo_all_miss {i T : Nat} :
    ∀ (attempts : List PollAttempt) (e : Nat),
      (∀ a ∈ attempts, isTriggerHit a = false) →
      pollGo i T attempts e = none
  | [], _, _ => rfl
  | att :: rest, e, h => by
      by_cases hT : T ≤ e
      · cases att <;> simp [pollGo, if_pos hT]
      · have hrest := @pollGo_all_miss i T rest (e + i)
          (fun a ha => h a (List.mem_cons_of_mem _ ha))
        cases att with
        | fetchFailure => simpa [pollGo, if_neg hT] using hrest
        | badStatus s => simpa [pollGo, if_neg hT] using hrest
        | ok trig =>
            cases trig with
            | none => simpa [pollGo, if_neg hT] using hrest
            | some t =>
                have := h (PollAttempt.ok (some t)) (List.mem_cons_self _ _)
                simp [isTriggerHit] at this

theorem pollGo_first_hit {i T : Nat} (t : Trigger) :
    ∀ (pre rest : List PollAttempt) (e : Nat),
      (∀ a ∈ pre, isTriggerHit a = false) →
      e + pre.length * i < T →
      pollGo i T (pre ++ PollAttempt.ok (some t) :: rest) e = some t
  | [], rest, e, _, hTime => by
      have : ¬T ≤ e := by simp at hTime; omega
      simp [pollGo, if_neg this]
  | att :: pre', rest, e, h, hTime => by
      have hT : ¬T ≤ e := by
        simp only [List.length_cons] at hTime
        have : e ≤ e + (pre'.length + 1) * i := Nat.le_add_right _ _
        omega
      have hrest := @pollGo_first_hit i T t pre' rest (e + i)
        (fun a ha => h a (List.mem_cons_of_mem _ ha))
        (by
          simp only [List.length_cons] at hTime
          rw [Nat.add_mul] at hTime
          omega)
      cases att with
      | fetchFailure => simpa [pollGo, if_neg hT] using hrest
      | badStatus s => simpa [pollGo, if_neg hT] using hrest
      | ok trig =>
          cases trig with
          | none => simpa [pollGo, if_neg hT] using hrest
          | some t' =>
              have := h (PollAttempt.ok (some t')) (List.mem_cons_self _ _)
              simp [isTriggerHit] at this

theorem pollGo_take {i T : Nat} :
    ∀ (n : Nat) (attempts : List PollAttempt) (e : Nat),
      T ≤ e + n * i →
      pollGo i T (attempts.take n) e = pollGo i T attempts e
  | 0, attempts, e, hT => by
      have hTe : T ≤ e := by simpa using hT
      cases attempts with
      | nil => rfl
      | cons att rest => cases att <;> simp [pollGo, if_pos hTe]
  | Nat.succ m, attempts, e, hT => by
      cases attempts with
      | nil => rfl
      | cons att rest =>
          by_cases hTe : T ≤ e
          · cases att <;> simp [pollGo, if_pos hTe]
          · have hrest := @pollGo_take i T m rest (e + i)
              (by rw [Nat.succ_mul] at hT; omega)
            cases att with
            | fetchFailure => simpa [pollGo, if_neg hTe] using hrest
            | badStatus s => simpa [pollGo, if_neg hTe] using hrest
            | ok trig =>
                cases trig with
                | none => simpa [pollGo, if_neg hTe] using hrest
                | some t' => simp [pollGo, if_neg hTe]

/-- C6: each poll window is bounded — `pollForTrigger` retries with one
`pollInterval` sleep per empty attempt and returns the first trigger
found before the deadline; a window of misses returns `none`; the window
only ever inspects the attempts that fit inside `pollTimeout`; and the
outer loop reacts to a `none` result by starting a fresh poll window
rather than stopping. -/
theorem pollWindow_spec (i T : Nat) (attempts : List PollAttempt)
    (d : String) :
    ((∀ a ∈ attempts, isTriggerHit a = false) →
      pollForTrigger attempts i T = none) ∧
    (∀ (pre rest : List PollAttempt) (t : Trigger),
      attempts = pre ++ PollAttempt.ok (some t) :: rest →
      (∀ a ∈ pre, isTriggerHit a = false) →
      pre.length * i < T →
      pollForTrigger attempts i T = some t) ∧
    (∀ n, T ≤ n * i →
      pollForTrigger (attempts.take n) i T = pollForTrigger attempts i T) ∧
    runnerLoopStep d none = LoopAction.pollAgain := by
  refine ⟨?_, ?_, ?_, rfl⟩
  · intro h
    exact pollGo_all_miss attempts 0 h
  · intro pre rest t hsplit hmiss htime
    rw [hsplit]
    exact pollGo_first_hit t pre rest 0 hmiss (by omega)
  · intro n hn
    exact pollGo_take n attempts 0 (by omega)

/-- Witness for `pollWindow_spec`: a window of 2000 ms polls and a 60000
ms deadline (the constants of the runner) misses twice, then hits. -/
theorem pollWindow_spec_witness :
    pollForTrigger [PollAttempt.ok none, PollAttempt.ok none] 2000 60000 =
      none ∧
    pollForTrigger
      [PollAttempt.ok none, PollAttempt.badStatus 500,
       PollAttempt.ok (some ⟨"task_assigned", some "T1", none, none⟩)]
      2000 60000 = some ⟨"task_assigned", some "T1", none, none⟩ ∧
    runnerLoopStep "/start-leader" none = LoopAction.pollAgain :=
  ⟨(pollWindow_spec 2000 60000
      [PollAttempt.ok none, PollAttempt.ok none] "/start-leader").1
        (by decide),
   (pollWindow_spec 2000 60000
      [PollAttempt.ok none, PollAttempt.badStatus 500,
       PollAttempt.ok (some ⟨"task_assigned", some "T1", none, none⟩)]
      "/start-leader").2.1
     [PollAttempt.ok none, PollAttempt.badStatus 500] []
     ⟨"task_assigned", some "T1", none, none⟩ rfl (by decide) (by decide),
   (pollWindow_spec 2000 60000 [] "/start-leader").2.2.2⟩

/-- C5 counterexample: a failed register transport call does not make the
loop retry — `runAgent` (`runner.ts` 350–353) catches the registration
error and terminates the process with exit code 1. -/
theorem registerFailureTerminates :
    runAgentStart false = StartOutcome.exitProcess 1 ∧
    runAgentStart false ≠ StartOutcome.enterPollLoop := by
  decide

/-- C5 (amended): every failed poll transport call (fetch rejection or
non-ok status) is treated as a miss with one `pollInterval` backoff and
the poll loop continues — it never crashes, and a window of failures just
yields `none`, after which the outer loop polls again; a failed register
call, however, terminates the agent process with exit code 1. -/
theorem transportFailure_spec (i T : Nat) (d : String) :
    (∀ (pre rest : List PollAttempt) (t : Trigger),
      (∀ a ∈ pre, isTriggerHit a = false) →
      pre.length * i < T →
      pollForTrigger (pre ++ PollAttempt.ok (some t) :: rest) i T = some t) ∧
    (∀ attempts : List PollAttempt,
      (∀ a ∈ attempts, isTriggerHit a = false) →
      pollForTrigger attempts i T = none ∧
      runnerLoopStep d (pollForTrigger attempts i T) = LoopAction.pollAgain) ∧
    runAgentStart false = StartOutcome.exitProcess 1 ∧
    runAgentStart true = StartOutcome.enterPollLoop := by
  refine ⟨?_, ?_, rfl, rfl⟩
  · intro pre rest t hmiss htime
    exact pollGo_first_hit t pre rest 0 hmiss (by omega)
  · intro attempts h
    have hnone := @pollGo_all_miss i T attempts 0 h
    exact ⟨hnone, by unfold pollForTrigger; rw [hnone]; rfl⟩

/-- Witness for `transportFailure_spec`: two transport failures before a
hit do not lose the trigger, and an all-failure window polls again. -/
theorem transportFailure_spec_witness :
    pollForTrigger
      [PollAttempt.fetchFailure, PollAttempt.badStatus 503,
       PollAttempt.ok (some ⟨"unread_mentions", none, some 2, none⟩)]
      2000 60000 = some ⟨"unread_mentions", none, some 2, none⟩ ∧
    pollForTrigger [PollAttempt.fetchFailure] 2000 60000 = none :=
  ⟨(transportFailure_spec 2000 60000 "/start-leader").1
     [PollAttempt.fetchFailure, PollAttempt.badStatus 503] []
     ⟨"unread_mentions", none, some 2, none⟩ (by decide) (by decide),
   ((transportFailure_spec 2000 60000 "/start-leader").2.1
     [PollAttempt.fetchFailure] (by decide)).1⟩

/-! ### Process supervision and error policy (`src/commands/runner.ts`) -/

/-- One record of `errors.jsonl` (`runner.ts` 404–410); the wall-clock
timestamp is not modelled. -/
structure IterationError where
  iteration : Nat
  exitCode : Int
  trigger : String
deriving DecidableEq, Repr

/-- What the loop does after handling one spawned process exit. -/
inductive IterationOutcome where
  | continuePolling
  | abort (code : Int)
deriving DecidableEq, Repr

/-- Resolution of the lenient ("YOLO") mode, `runner.ts` 264:
`opts.yolo || process.env.YOLO === "true"`, computed once before the
loop. -/
def resolveIsYolo (optsYolo : Bool) (envYOLO : Option String) : Bool :=
  optsYolo || decide (envYOLO = some "true")

/-- Translation of the non-zero-exit handling of one loop iteration
(`runner.ts` 403–424): append the error record to `errors.jsonl`, then
abort with the process exit code in strict mode, or warn and resume in
lenient mode; a zero exit changes nothing. -/
def handleIterationExit (isYolo : Bool) (iteration : Nat) (exitCode : Int)
    (triggerType : String) (errors : List IterationError) :
    List IterationError × IterationOutcome :=
  if exitCode ≠ 0 then
    let errors' := errors ++ [⟨iteration, exitCode, triggerType⟩]
    if isYolo then (errors', IterationOutcome.continuePolling)
    else (errors', IterationOutcome.abort exitCode)
  else (errors, IterationOutcome.continuePolling)

/-- The dispatch loop (`runner.ts` 355–427) restricted to its
error-handling effect: each list element is the
(exit code, trigger type) of one iteration; the mode is resolved once from the CLI flag
and environment and governs every iteration. -/
def runDispatch (optsYolo : Bool) (envYOLO : Option String) :
    List (Int × String) → Nat → List IterationError →
      List IterationError × IterationOutcome
  | [], _, errors => (errors, IterationOutcome.continuePolling)
  | (e, tr) :: rest, iter, errors =>
      match handleIterationExit (resolveIsYolo optsYolo envYOLO) iter e tr
          errors with
      | (errors', IterationOutcome.abort code) =>
          (errors', IterationOutcome.abort code)
      | (errors', IterationOutcome.continuePolling) =>
          runDispatch optsYolo envYOLO rest (iter + 1) errors'

/-- C7: when the spawned process exits non-zero, the loop appends an
error record (iteration, exit code, trigger) to `errors.jsonl` and then
aborts with that exit code in strict mode, or logs and resumes polling in
lenient (YOLO) mode; the mode is resolved once from the CLI flag or the
`YOLO` env var and applies to every iteration, not per call. -/
theorem processExitPolicy (optsYolo : Bool) (envYOLO : Option String)
    (iter : Nat) (e : Int) (tr : String) (errors : List IterationError)
    (rest : List (Int × String)) (he : e ≠ 0) :
    (handleIterationExit (resolveIsYolo optsYolo envYOLO) iter e tr
        errors).1 = errors ++ [⟨iter, e, tr⟩] ∧
    (resolveIsYolo optsYolo envYOLO = false →
      (handleIterationExit (resolveIsYolo optsYolo envYOLO) iter e tr
          errors).2 = IterationOutcome.abort e) ∧
    (resolveIsYolo optsYolo envYOLO = true →
      (handleIterationExit (resolveIsYolo optsYolo envYOLO) iter e tr
          errors).2 = IterationOutcome.continuePolling) ∧
    runDispatch optsYolo envYOLO ((e, tr) :: rest) iter errors =
      (if resolveIsYolo optsYolo envYOLO then
        runDispatch optsYolo envYOLO rest (iter + 1)
          (errors ++ [⟨iter, e, tr⟩])
      else (errors ++ [⟨iter, e, tr⟩], IterationOutcome.abort e)) := by
  refine ⟨?_, ?_, ?_, ?_⟩
  · cases hy : resolveIsYolo optsYolo envYOLO <;>
      simp [handleIterationExit, he, hy]
  · intro hy
    simp [handleIterationExit, he, hy]
  · intro hy
    simp [handleIterationExit, he, hy]
  · cases hy : resolveIsYolo optsYolo envYOLO <;>
      simp [runDispatch, handleIterationExit, he, hy]

/-- Witness for `processExitPolicy`: exit code 2 in strict mode logs the
record and aborts with code 2. -/
theorem processExitPolicy_witness :
    (handleIterationExit (resolveIsYolo false none) 4 2 "task_assigned"
        []).1 = [⟨4, 2, "task_assigned"⟩] ∧
    (handleIterationExit (resolveIsYolo false none) 4 2 "task_assigned"
        []).2 = IterationOutcome.abort 2 :=
  ⟨(processExitPolicy false none 4 2 "task_assigned" [] [] (by decide)).1,
   (processExitPolicy false none 4 2 "task_assigned" [] [] (by decide)).2.1
     (by decide)⟩

/-- C8: `buildPromptForTrigger` maps a `task_assigned` trigger to
`/work-on-task <taskId>`, a `task_offered` trigger to
`/review-offered-task <taskId>`, an `unread_mentions` trigger to
`/swarm-chat`, and every other trigger type — `pool_tasks_available`
included — to the configured default prompt. -/
theorem buildPromptForTrigger_spec (t : Trigger) (d : String) :
    (t.type = "task_assigned" →
      buildPromptForTrigger t d = "/work-on-task " ++ tsInterpolate t.taskId) ∧
    (t.type = "task_offered" →
      buildPromptForTrigger t d =
        "/review-offered-task " ++ tsInterpolate t.taskId) ∧
    (t.type = "unread_mentions" →
      buildPromptForTrigger t d = "/swarm-chat") ∧
    (t.type ∉ (["task_assigned", "task_offered", "unread_mentions"] :
        List String) →
      buildPromptForTrigger t d = d) := by
  refine ⟨?_, ?_, ?_, ?_⟩
  · intro h
    simp [buildPromptForTrigger, h]
  · intro h
    simp [buildPromptForTrigger, h]
  · intro h
    simp [buildPromptForTrigger, h]
  · intro h
    simp only [List.mem_cons, List.not_mem_nil, or_false, not_or] at h
    obtain ⟨h₁, h₂, h₃⟩ := h
    simp only [buildPromptForTrigger, if_neg h₁, if_neg h₂, if_neg h₃]
    by_cases h₄ : t.type = "pool_tasks_available" <;> simp [h₄]

/-- Witness for `buildPromptForTrigger_spec`: the four concrete
dispatches, including the `pool_tasks_available` fall-through. -/
theorem buildPromptForTrigger_spec_witness :
    buildPromptForTrigger ⟨"task_assigned", some "T9", none, none⟩
      "/start-leader" = "/work-on-task " ++ tsInterpolate (some "T9") ∧
    buildPromptForTrigger ⟨"task_offered", some "T9", none, none⟩
      "/start-leader" = "/review-offered-task " ++ tsInterpolate (some "T9") ∧
    buildPromptForTrigger ⟨"unread_mentions", none, some 3, none⟩
      "/start-leader" = "/swarm-chat" ∧
    buildPromptForTrigger ⟨"pool_tasks_available", none, none, some 4⟩
      "/start-leader" = "/start-leader" :=
  ⟨(buildPromptForTrigger_spec ⟨"task_assigned", some "T9", none, none⟩
      "/start-leader").1 rfl,
   (buildPromptForTrigger_spec ⟨"task_offered", some "T9", none, none⟩
      "/start-leader").2.1 rfl,
   (buildPromptForTrigger_spec ⟨"unread_mentions", none, some 3, none⟩
      "/start-leader").2.2.1 rfl,
   (buildPromptForTrigger_spec ⟨"pool_tasks_available", none, none, some 4⟩
      "/start-leader").2.2.2 (by decide)⟩

/-! ### The task status schema (`src/types.ts`) -/

/-- Translation of `AgentTaskStatusSchema` (`src/types.ts` 4–11): the
`z.enum` of task status strings the schema admits. -/
def agentTaskStatusSchemaValues : List String :=
  ["unassigned", "offered", "pending", "in_progress", "completed", "failed"]

/-- Membership test of the schema enum: whether a status string parses. -/
def agentTaskStatusSchemaAdmits (s : String) : Bool :=
  decide (s ∈ agentTaskStatusSchemaValues)

/-- Task status domain the specification (§3) requires: eight values. -/
def specTaskStatusValues : List String :=
  ["unassigned", "offered", "reviewing", "pending", "in_progress",
   "completed", "failed", "cancelled"]

/-- C9 refutation: `AgentTaskStatusSchema` admits only six statuses —
`"reviewing"` and `"cancelled"` are missing — although the specified domain
has eight, claiming an offered task yields a task whose status renders as
`"reviewing"` (the repository test at `src/unnamed/part_003` 295 expects
it), and `cancelTask` yields `"cancelled"`
(`src/tests/task-cancellation.test.ts` 170). -/
theorem agentTaskStatusSchema_missing_statuses :
    agentTaskStatusSchemaAdmits "reviewing" = false ∧
    agentTaskStatusSchemaAdmits "cancelled" = false ∧
    "reviewing" ∈ specTaskStatusValues ∧
    "cancelled" ∈ specTaskStatusValues ∧
    (claimOfferedTask "t1" "w1" 5
        [⟨"t1", TaskStatus.offered, some "w1", none, 0⟩]).1 =
      some ⟨"t1", TaskStatus.reviewing, some "w1", none, 5⟩ ∧
    agentTaskStatusSchemaAdmits TaskStatus.reviewing.toDbString = false ∧
    agentTaskStatusSchemaAdmits TaskStatus.cancelled.toDbString = false ∧
    (∀ st : TaskStatus, st.toDbString ∈ specTaskStatusValues) := by
  refine ⟨by decide, by decide, by decide, by decide, by decide, by decide,
    by decide, ?_⟩
  intro st
  cases st <;> decide

/-! ### The hook script (`src/hooks/hook.ts`) -/

end AgentSwarm
